import Mathlib

/-!
Shallow embedding of PISM's time-windowed forcing-field cache
(src/src/util/iceModelVec2T.cc).  Spatial fields are tracked at one
representative grid point: every operation of iceModelVec2T.cc acts pointwise
on the grid, so a record's data is a single rational.  The external Record
Store (io::regrid_spatial_variable reading record k) is a function from record
indices to values.  The Interpolation engine (pism/util/interpolation.cc) and
Time::mod (pism/util/Time.cc) are not under src/, so they are modelled from the
spec, as marked in their doc comments.
-/

/-- Interpolation modes supported by the cache (iceModelVec2T.cc:157-161). -/
inductive InterpolationType where
  | piecewiseConstant
  | linear
  | linearPeriodic
deriving DecidableEq

/-- Error outcomes of the cache's fallible operations: the RuntimeError throws
of iceModelVec2T.cc.  `bufferTooSmall` is the "cannot read %d records (buffer
size: %d)" throw (line 376) and the periodic-capacity throw (line 309);
`invalidStart` is the "start = %d is invalid" throw (line 390). -/
inductive UpdateError where
  | invalidStart
  | bufferTooSmall
deriving DecidableEq

/-- State of one IceModelVec2T: the fields of IceModelVec2T::Data
(iceModelVec2T.cc:39-86) plus the parts of the IceModelVec2S base it uses.
`slots` is the 3D Vec `v` at the representative grid point, `a2` the 2D field
value there, `store` the external Record Store, and `hasFile` is false exactly
when `m_data->filename` is empty (init_constant). -/
structure IceModelVec2T where
  /-- all the times available in the file (m_data->time) -/
  time : List ℚ
  /-- time bounds (m_data->time_bounds); length 2 * time.length when present -/
  time_bounds : List ℚ
  /-- maximum number of records to store in memory -/
  n_records : ℕ
  /-- number of records kept in memory -/
  N : ℕ
  /-- in-file index of the first record stored in memory (-1 = invalid) -/
  first : ℤ
  /-- slot storage at the representative grid point; fixed length n_records -/
  slots : List ℚ
  /-- forcing period (0 = non-periodic) -/
  period : ℚ
  /-- reference time -/
  reference_time : ℚ
  /-- number of evaluations per year used to compute temporal averages -/
  n_evaluations_per_year : ℕ
  interp_type : InterpolationType
  /-- the IceModelVec2S field value at the representative grid point -/
  a2 : ℚ
  /-- false when m_data->filename is empty: no Record Store behind this cache -/
  hasFile : Bool
  /-- the Record Store: file record index to data at the grid point -/
  store : ℕ → ℚ

/-- Modelled from the spec: interpolation.cc is not under src/.  Left end of the
Interpolation Engine's bracketing pair for a query time t (spec 4.1): the
largest k with time[k] ≤ t, clamped to 0 when t precedes the whole axis. -/
def leftIndex (time : List ℚ) (t : ℚ) : ℕ :=
  (((List.range time.length).filter fun k => decide (time.getD k 0 ≤ t)).getLast?).getD 0

/-- Modelled from the spec: interpolation.cc is not under src/.  Right end of
the Interpolation Engine's bracketing pair for a query time t (spec 4.1): the
smallest k with t ≤ time[k], clamped to the last index when t is past the axis. -/
def rightIndex (time : List ℚ) (t : ℚ) : ℕ :=
  (((List.range time.length).find? fun k => decide (t ≤ time.getD k 0))).getD (time.length - 1)

/-- Modelled from the spec: Time.cc is not under src/.  Time::mod(x, P) reduces
x modulo the period P, yielding the representative of x in [0, P) for P > 0. -/
def qmod (x P : ℚ) : ℚ := x - P * (⌊x / P⌋ : ℚ)

/-- Periodized query time as computed by IceModelVec2T::init_interpolation
(iceModelVec2T.cc:604-611): time->mod(t - reference_time, period) when
periodic, t itself otherwise. -/
def IceModelVec2T.foldTime (s : IceModelVec2T) (t : ℚ) : ℚ :=
  if s.period ≠ 0 then qmod (t - s.reference_time) s.period else t

/-- The query times handed to the Interpolation engine by init_interpolation:
each requested time, periodized (iceModelVec2T.cc:602-611). -/
def IceModelVec2T.times_requested (s : IceModelVec2T) (ts : List ℚ) : List ℚ :=
  ts.map s.foldTime

/-- The sub-axis handed to the Interpolation engine by init_interpolation:
&m_data->time[m_data->first] with m_data->N entries (iceModelVec2T.cc:613). -/
def IceModelVec2T.bufferedTimes (s : IceModelVec2T) : List ℚ :=
  (s.time.drop s.first.toNat).take s.N

/-- Modelled from the spec (4.1): interpolation.cc is not under src/.  Value
produced by the Interpolation Engine at the already-periodized time t' over the
buffered sub-axis: piecewise-constant mode uses weight 1 on left; the linear
modes put weight (t' - time[left]) / (time[right] - time[left]) on right and
the complement on left, the degenerate case time[left] == time[right] resolved
as the pure left value. -/
def IceModelVec2T.interpValue (s : IceModelVec2T) (t' : ℚ) : ℚ :=
  let sub := s.bufferedTimes
  let L := leftIndex sub t'
  let R := rightIndex sub t'
  match s.interp_type with
  | .piecewiseConstant => s.slots.getD L 0
  | _ =>
    let tL := sub.getD L 0
    let tR := sub.getD R 0
    if tL = tR then s.slots.getD L 0
    else s.slots.getD L 0 + (t' - tL) / (tR - tL) * (s.slots.getD R 0 - s.slots.getD L 0)

/-- Slot storage after the shift loop of IceModelVec2T::discard
(iceModelVec2T.cc:470-480): slot k receives slot k + shift for k < newN (the
already-decremented record count); slots at or above newN keep their stale
contents.  The storage is never reallocated: the result has the same length. -/
def discardSlots (slots : List ℚ) (newN shift : ℕ) : List ℚ :=
  (List.range slots.length).map fun k =>
    if k < newN then slots.getD (k + shift) 0 else slots.getD k 0

/-- IceModelVec2T::discard(number) (iceModelVec2T.cc:463-481): return unchanged
when number = 0, otherwise N -= number followed by the in-place shift. -/
def IceModelVec2T.discard (s : IceModelVec2T) (number : ℕ) : IceModelVec2T :=
  if number = 0 then s
  else { s with N := s.N - number, slots := discardSlots s.slots (s.N - number) number }

/-- Write f 0, …, f (m-1) into slots base, …, base + m - 1, in order. -/
def setMany (sl : List ℚ) (base : ℕ) (f : ℕ → ℚ) (m : ℕ) : List ℚ :=
  (List.range m).foldl (fun acc j => acc.set (base + j) (f j)) sl

/-- Read loop of IceModelVec2T::update(unsigned int) (iceModelVec2T.cc:421-459):
N is set to kept + missing, then record start + j is read from the Record Store
into slot kept + j for each j < missing.  Returns the new state together with
the list of record indices read. -/
def IceModelVec2T.fetch (s : IceModelVec2T) (kept missing start : ℕ) :
    IceModelVec2T × List ℕ :=
  ({ s with N := kept + missing,
            slots := setMany s.slots kept (fun j => s.store (start + j)) missing },
   (List.range missing).map (start + ·))

/-- IceModelVec2T::update(unsigned int start) (iceModelVec2T.cc:385-460).
Returns the updated state and the record indices read from the Record Store, or
the "start = %d is invalid" error.  C++ unsigned subtractions that cannot
underflow under the window invariant are written as truncated Nat subtraction. -/
def IceModelVec2T.update_start (s : IceModelVec2T) (start : ℕ) :
    Except UpdateError (IceModelVec2T × List ℕ) :=
  if s.time.length ≤ start then .error .invalidStart
  else
    let missing0 := min s.n_records (s.time.length - start)
    if (start : ℤ) = s.first then .ok (s, [])
    else if 0 ≤ s.first ∧ 0 < s.N ∧ s.first ≤ (start : ℤ) ∧ (start : ℤ) ≤ s.first + s.N - 1 then
      -- overlap: records [start, first + N) are kept, the prefix is discarded
      let discarded := start - s.first.toNat
      let kept := s.N - discarded
      let s1 := { s.discard discarded with first := (start : ℤ) }
      let missing := missing0 - kept
      if missing = 0 then .ok (s1, []) else .ok (s1.fetch kept missing (start + kept))
    else
      let s1 := { s with first := (start : ℤ) }
      if missing0 = 0 then .ok (s1, []) else .ok (s1.fetch 0 missing0 start)

/-- Fast-path test of IceModelVec2T::update(double, double)
(iceModelVec2T.cc:352-364): the time-bounds of the records held in memory
already cover [t, t + dt]. -/
def IceModelVec2T.fastCovered (s : IceModelVec2T) (t dt : ℚ) : Prop :=
  0 < s.N ∧ s.time_bounds.getD (2 * s.first.toNat) 0 ≤ t ∧
    t + dt ≤ s.time_bounds.getD (2 * (s.first.toNat + s.N - 1) + 1) 0

instance (s : IceModelVec2T) (t dt : ℚ) : Decidable (s.fastCovered t dt) := by
  unfold IceModelVec2T.fastCovered
  infer_instance

/-- IceModelVec2T::update(double t, double dt) (iceModelVec2T.cc:335-382): make
sure the interval [t, t + dt] is covered.  Returns the updated state and the
record indices read, or the "cannot read %d records (buffer size: %d)" error;
that error is raised before any Record Store read. -/
def IceModelVec2T.update (s : IceModelVec2T) (t dt : ℚ) :
    Except UpdateError (IceModelVec2T × List ℕ) :=
  if s.hasFile = false then .ok (s, [])
  else if s.time_bounds.length = 0 then s.update_start 0
  else if s.period ≠ 0 then .ok (s, [])
  else if s.fastCovered t dt then .ok (s, [])
  else
    let first := leftIndex s.time t
    let last := rightIndex s.time (t + dt)
    let needed := last + 1 - first
    if s.n_records < needed then .error .bufferTooSmall
    else s.update_start first

/-- IceModelVec2T::init_constant(value) (iceModelVec2T.cc:319-332): constant in
time and space.  The field and slot 0 become `value`, the time axis becomes {0}
with fake bounds {-1, 1}, N = 1, first = 0.  A constant field reads from no
file (filename stays empty) and its conceptual Record Store holds the constant
everywhere. -/
def IceModelVec2T.init_constant (s : IceModelVec2T) (value : ℚ) : IceModelVec2T :=
  { s with a2 := value, slots := s.slots.set 0 value, time := [0], N := 1,
           first := 0, time_bounds := [-1, 1], hasFile := false,
           store := fun _ => value }

/-- Periodic tail of IceModelVec2T::init (iceModelVec2T.cc:307-315): when
periodic, the buffer must be big enough to hold all records of the axis, and
the whole axis is read right away via update(0). -/
def IceModelVec2T.init_periodic_read (s : IceModelVec2T) :
    Except UpdateError (IceModelVec2T × List ℕ) :=
  if s.period ≠ 0 then
    if s.n_records < s.time.length then .error .bufferTooSmall
    else s.update_start 0
  else .ok (s, [])

/-- Value delivered by IceModelVec2T::interp(double t) (iceModelVec2T.cc:541-546):
init_interpolation for the single query time, then get_record(left(0)): the
buffered slot at the left bracketing index of the periodized time. -/
def IceModelVec2T.evalAt (s : IceModelVec2T) (t : ℚ) : ℚ :=
  s.slots.getD (leftIndex s.bufferedTimes (s.foldTime t)) 0

/-- IceModelVec2T::interp(double t) as a state transformer: the field takes the
value at time t; the window is untouched. -/
def IceModelVec2T.interp (s : IceModelVec2T) (t : ℚ) : IceModelVec2T :=
  { s with a2 := s.evalAt t }

/-- Number of small time steps used by IceModelVec2T::average(double, double)
(iceModelVec2T.cc:567-571): M = ceil(n_evaluations_per_year * dt_years),
clamped below to 1.  units::convert (an external collaborator) rescales dt from
seconds to years; time is modelled in years throughout, which makes that
conversion the identity. -/
def IceModelVec2T.sampleCount (s : IceModelVec2T) (dt : ℚ) : ℕ :=
  (max 1 ⌈(s.n_evaluations_per_year : ℚ) * dt⌉).toNat

/-- IceModelVec2T::average(double t, double dt) (iceModelVec2T.cc:556-587)
together with the pointwise IceModelVec2T::average(int, int)
(iceModelVec2T.cc:638-659).  With a single-record time axis nothing happens
(empty sample list, state returned as is).  Otherwise the field becomes the
rectangle-rule average of the M interpolated values at the sample times
t + k * (dt / M); the single-buffered-record shortcut (N == 1) returns slot 0
directly.  Returns the new state and the sample times used. -/
def IceModelVec2T.average (s : IceModelVec2T) (t dt : ℚ) :
    IceModelVec2T × List ℚ :=
  if s.time.length = 1 then (s, [])
  else
    let M := s.sampleCount dt
    let ts := (List.range M).map fun k : ℕ => t + (k : ℚ) * (dt / (M : ℚ))
    let val :=
      if s.N = 1 then s.slots.getD 0 0
      else (ts.map fun x => s.interpValue (s.foldTime x)).sum / (M : ℚ)
    ({ s with a2 := val }, ts)

/-- IceModelVec2T::max_timestep(t) (iceModelVec2T.cc:511-530).
gsl_interp_bsearch (an external library with documented semantics) returns the
bracket index k with time[k] ≤ t < time[k+1], clamped to the ends; on a
strictly increasing axis that is leftIndex.  `none` models the unrestricted
MaxTimestep(). -/
def IceModelVec2T.max_timestep (s : IceModelVec2T) (t : ℚ) : Option ℚ :=
  let k := leftIndex s.time t
  let dt := max (s.time_bounds.getD (2 * k + 1) 0 - t) 0
  if 1 < dt then some dt
  else if k + 1 < s.time.length then
    some (s.time_bounds.getD (2 * (k + 1) + 1) 0 - s.time_bounds.getD (2 * (k + 1)) 0)
  else none

/-- The spec's discard-prefix operation (4.2): IceModelVec2T::discard(k)
together with the `m_data->first += discarded` advance performed by its caller
update(unsigned int) (iceModelVec2T.cc:405-410). -/
def IceModelVec2T.discardAdvance (s : IceModelVec2T) (k : ℕ) : IceModelVec2T :=
  { s.discard k with first := s.first + k }

/-- Window-state invariant (spec 3): the capacity is at least one record
(guaranteed by ForcingField, iceModelVec2T.cc:123), N never exceeds it, the
slot storage has exactly n_records slots, `first` is the -1 sentinel exactly
when the window is empty, and a nonempty window lies inside the time axis with
the slots holding the contiguous run of file records [first, first + N). -/
def IceModelVec2T.Valid (s : IceModelVec2T) : Prop :=
  1 ≤ s.n_records ∧ s.N ≤ s.n_records ∧ s.slots.length = s.n_records ∧
  (s.first = -1 ↔ s.N = 0) ∧ (s.first = -1 ∨ 0 ≤ s.first) ∧
  (0 < s.N → s.first.toNat + s.N ≤ s.time.length ∧
    ∀ i, i < s.N → s.slots.getD i 0 = s.store (s.first.toNat + i))

/-! Field-projection lemmas for the state transformers. -/

@[simp] lemma IceModelVec2T.discard_time (s : IceModelVec2T) (n : ℕ) :
    (s.discard n).time = s.time := by
  unfold IceModelVec2T.discard
  split <;> rfl

@[simp] lemma IceModelVec2T.discard_time_bounds (s : IceModelVec2T) (n : ℕ) :
    (s.discard n).time_bounds = s.time_bounds := by
  unfold IceModelVec2T.discard
  split <;> rfl

@[simp] lemma IceModelVec2T.discard_period (s : IceModelVec2T) (n : ℕ) :
    (s.discard n).period = s.period := by
  unfold IceModelVec2T.discard
  split <;> rfl

@[simp] lemma IceModelVec2T.discard_n_records (s : IceModelVec2T) (n : ℕ) :
    (s.discard n).n_records = s.n_records := by
  unfold IceModelVec2T.discard
  split <;> rfl

@[simp] lemma IceModelVec2T.discard_hasFile (s : IceModelVec2T) (n : ℕ) :
    (s.discard n).hasFile = s.hasFile := by
  unfold IceModelVec2T.discard
  split <;> rfl

@[simp] lemma IceModelVec2T.discard_store (s : IceModelVec2T) (n : ℕ) :
    (s.discard n).store = s.store := by
  unfold IceModelVec2T.discard
  split <;> rfl

lemma IceModelVec2T.discard_N_of_ne (s : IceModelVec2T) {n : ℕ} (h : n ≠ 0) :
    (s.discard n).N = s.N - n := by
  unfold IceModelVec2T.discard
  rw [if_neg h]

lemma IceModelVec2T.discard_slots_of_ne (s : IceModelVec2T) {n : ℕ} (h : n ≠ 0) :
    (s.discard n).slots = discardSlots s.slots (s.N - n) n := by
  unfold IceModelVec2T.discard
  rw [if_neg h]

/-! Lemmas about setMany and discardSlots. -/

lemma setMany_succ (sl : List ℚ) (b : ℕ) (f : ℕ → ℚ) (m : ℕ) :
    setMany sl b f (m + 1) = (setMany sl b f m).set (b + m) (f m) := by
  unfold setMany
  rw [List.range_succ, List.foldl_append]
  rfl

@[simp] lemma setMany_length (sl : List ℚ) (b : ℕ) (f : ℕ → ℚ) (m : ℕ) :
    (setMany sl b f m).length = sl.length := by
  induction m with
  | zero => rfl
  | succ n ih => rw [setMany_succ, List.length_set, ih]

lemma setMany_getD_lt (sl : List ℚ) (b : ℕ) (f : ℕ → ℚ) (m : ℕ) {i : ℕ} (hlt : i < b) :
    (setMany sl b f m).getD i 0 = sl.getD i 0 := by
  induction m with
  | zero => rfl
  | succ n ih =>
    rw [setMany_succ, List.getD_eq_getElem?_getD, List.getElem?_set_ne (by omega),
      ← List.getD_eq_getElem?_getD, ih]

lemma setMany_getD_in (sl : List ℚ) (b : ℕ) (f : ℕ → ℚ) (m : ℕ) {i : ℕ}
    (hge : b ≤ i) (hlt : i < b + m) (hlen : i < sl.length) :
    (setMany sl b f m).getD i 0 = f (i - b) := by
  induction m with
  | zero => omega
  | succ n ih =>
    rw [setMany_succ]
    by_cases hi : i = b + n
    · subst hi
      rw [List.getD_eq_getElem?_getD,
        List.getElem?_set_eq_of_lt _ (by rw [setMany_length]; exact hlen)]
      simp
    · rw [List.getD_eq_getElem?_getD, List.getElem?_set_ne (by omega),
        ← List.getD_eq_getElem?_getD, ih (by omega)]

@[simp] lemma discardSlots_length (sl : List ℚ) (n k : ℕ) :
    (discardSlots sl n k).length = sl.length := by
  unfold discardSlots
  rw [List.length_map, List.length_range]

lemma discardSlots_getD (sl : List ℚ) (n k : ℕ) {i : ℕ} (hi : i < sl.length) :
    (discardSlots sl n k).getD i 0 =
      if i < n then sl.getD (i + k) 0 else sl.getD i 0 := by
  unfold discardSlots
  rw [List.getD_eq_getElem?_getD, List.getElem?_map]
  rw [List.getElem?_range hi]
  rfl

/-! Lemmas about the modelled Time::mod. -/

lemma qmod_eq_mul_fract {P : ℚ} (hP : P ≠ 0) (x : ℚ) :
    qmod x P = P * Int.fract (x / P) := by
  unfold qmod Int.fract
  rw [mul_sub]
  congr 1
  field_simp

lemma qmod_nonneg {P : ℚ} (hP : 0 < P) (x : ℚ) : 0 ≤ qmod x P := by
  rw [qmod_eq_mul_fract hP.ne' x]
  exact mul_nonneg hP.le (Int.fract_nonneg _)

lemma qmod_lt {P : ℚ} (hP : 0 < P) (x : ℚ) : qmod x P < P := by
  rw [qmod_eq_mul_fract hP.ne' x]
  calc P * Int.fract (x / P) < P * 1 := by
        exact mul_lt_mul_of_pos_left (Int.fract_lt_one _) hP
    _ = P := mul_one P

lemma qmod_add_self {P : ℚ} (hP : P ≠ 0) (x : ℚ) : qmod (x + P) P = qmod x P := by
  unfold qmod
  have hdiv : (x + P) / P = x / P + 1 := by field_simp
  rw [hdiv, Int.floor_add_one]
  push_cast
  ring

lemma IceModelVec2T.sampleCount_pos (s : IceModelVec2T) (dt : ℚ) :
    0 < s.sampleCount dt := by
  unfold IceModelVec2T.sampleCount
  have h : (1 : ℤ) ≤ max 1 ⌈(s.n_evaluations_per_year : ℚ) * dt⌉ := le_max_left _ _
  omega

/-- A buffer holding at most one record interpolates to slot 0 regardless of
the query time (spec 4.1: a single-record buffer returns the sole record's
value; no interpolation is attempted). -/
lemma IceModelVec2T.interpValue_single (s : IceModelVec2T) (hN : s.N = 1) (t' : ℚ) :
    s.interpValue t' = s.slots.getD 0 0 := by
  have hsub : s.bufferedTimes.length ≤ 1 := by
    unfold IceModelVec2T.bufferedTimes
    rw [List.length_take, List.length_drop]
    omega
  unfold IceModelVec2T.interpValue
  rcases hcase : s.bufferedTimes with _ | ⟨a, tl⟩
  · cases s.interp_type <;> simp [leftIndex, hcase]
  · rcases tl with _ | ⟨b, tl2⟩
    · have hL : leftIndex [a] t' = 0 := by
        unfold leftIndex
        by_cases hat : a ≤ t' <;> simp [hat, List.filter]
      have hR : rightIndex [a] t' = 0 := by
        unfold rightIndex
        by_cases hat : t' ≤ a <;> simp [hat, List.find?]
      cases s.interp_type <;> simp [hcase, hL, hR]
    · rw [hcase] at hsub
      simp at hsub

/-! Concrete states used in the spec's scenarios: the 3-record time axis
[0, 10, 20] with validity bounds [0,10), [10,20), [20,30) and capacity
n_records = 2 (spec 8), over an arbitrary Record Store f. -/

/-- Scenario start state: nothing buffered yet (N = 0, first = -1). -/
def scen0 (f : ℕ → ℚ) : IceModelVec2T :=
  { time := [0, 10, 20], time_bounds := [0, 10, 10, 20, 20, 30], n_records := 2,
    N := 0, first := -1, slots := [0, 0], period := 0, reference_time := 0,
    n_evaluations_per_year := 1, interp_type := .piecewiseConstant, a2 := 0,
    hasFile := true, store := f }

/-- Scenario state after ensure_coverage(0, 5): records 0 and 1 buffered. -/
def scen1 (f : ℕ → ℚ) : IceModelVec2T :=
  { scen0 f with N := 2, first := 0, slots := [f 0, f 1] }

/-- Scenario state after the subsequent ensure_coverage(15, 18): record 0
discarded, record 1 shifted to slot 0, record 2 fetched into slot 1. -/
def scen2 (f : ℕ → ℚ) : IceModelVec2T :=
  { scen0 f with N := 2, first := 1, slots := [f 1, f 2] }

/-- A concrete Record Store used by the witnesses: record k holds the value k. -/
def idq : ℕ → ℚ := fun k => (k : ℚ)

/-- C1: on the time axis [0, 10, 20] with bounds [0,10), [10,20), [20,30) and
n_records = 2, update(0, 5) buffers records 0 and 1 (reads [0, 1]); the
subsequent update(15, 18) discards record 0, shifts record 1's data to slot 0,
reads exactly record 2 into slot 1, and leaves the window at first = 1, N = 2. -/
theorem scenario_shift_fetch (f : ℕ → ℚ) :
    (scen0 f).update 0 5 = .ok (scen1 f, [0, 1]) ∧
    (scen1 f).update 15 18 = .ok (scen2 f, [2]) := by
  constructor <;>
    norm_num [scen0, scen1, scen2, IceModelVec2T.update, IceModelVec2T.update_start,
      IceModelVec2T.fetch, IceModelVec2T.discard, IceModelVec2T.fastCovered,
      discardSlots, setMany, leftIndex, rightIndex, List.range_succ, List.filter,
      List.find?, List.foldl]

theorem scenario_shift_fetch_witness :
    (scen0 idq).update 0 5 = .ok (scen1 idq, [0, 1]) ∧
    (scen1 idq).update 15 18 = .ok (scen2 idq, [2]) :=
  scenario_shift_fetch idq

/-- A periodic state: period 10, reference_time 5, both records resident. -/
def pscen : IceModelVec2T :=
  { time := [0, 10], time_bounds := [0, 10, 10, 20], n_records := 2,
    N := 2, first := 0, slots := [3, 7], period := 10, reference_time := 5,
    n_evaluations_per_year := 1, interp_type := .linearPeriodic, a2 := 0,
    hasFile := true, store := idq }

/-- C6 counterexample: with reference_time = 5 and period = 10, the query time
t = 7 is periodized by init_interpolation (iceModelVec2T.cc:604-611) to
mod(t - reference_time, period) = 2, whereas the claim's formula
reference_time + ((t - reference_time) mod period) gives 7: the times matched
against the Time Axis lie in [0, period), not in
[reference_time, reference_time + period). -/
theorem fold_cex :
    pscen.times_requested [7] = [2] ∧
    pscen.reference_time + qmod (7 - pscen.reference_time) pscen.period = 7 ∧
    (2 : ℚ) ≠ 7 := by
  refine ⟨?_, ?_, by norm_num⟩
  · norm_num [pscen, IceModelVec2T.times_requested, IceModelVec2T.foldTime, qmod]
  · norm_num [pscen, qmod]

/-- C6 amended: in periodic mode (period P > 0) every query time t is folded to
(t - reference_time) mod P, the representative in [0, P) (the reference time is
not added back), before being matched against the Time Axis; and the periodic
branch of init (iceModelVec2T.cc:307-315) fails unless the buffer capacity
n_records can hold all records of the periodic time axis simultaneously. -/
theorem fold_amended (s : IceModelVec2T) (t : ℚ) (hP : 0 < s.period) :
    s.times_requested [t] = [qmod (t - s.reference_time) s.period] ∧
    0 ≤ qmod (t - s.reference_time) s.period ∧
    qmod (t - s.reference_time) s.period < s.period ∧
    (s.n_records < s.time.length → s.init_periodic_read = .error .bufferTooSmall) := by
  refine ⟨?_, qmod_nonneg hP _, qmod_lt hP _, ?_⟩
  · unfold IceModelVec2T.times_requested IceModelVec2T.foldTime
    rw [List.map_singleton, if_pos hP.ne']
  · intro hcap
    unfold IceModelVec2T.init_periodic_read
    rw [if_pos hP.ne', if_pos hcap]

theorem fold_amended_witness :
    pscen.times_requested [7] = [qmod (7 - pscen.reference_time) pscen.period] ∧
    0 ≤ qmod (7 - pscen.reference_time) pscen.period ∧
    qmod (7 - pscen.reference_time) pscen.period < pscen.period ∧
    (pscen.n_records < pscen.time.length →
      pscen.init_periodic_read = .error .bufferTooSmall) :=
  fold_amended pscen 7 (by decide)

/-- C7: in periodic mode with period P > 0, the field produced by
interp(double t) (iceModelVec2T.cc:541-546) and the Interpolation Engine value
used by average are P-periodic in the query time: t and t + P yield identical
results, because init_interpolation periodizes both to the same folded time. -/
theorem interp_periodic (s : IceModelVec2T) (t : ℚ) (hP : 0 < s.period) :
    s.evalAt (t + s.period) = s.evalAt t ∧
    s.interpValue (s.foldTime (t + s.period)) = s.interpValue (s.foldTime t) := by
  have hfold : s.foldTime (t + s.period) = s.foldTime t := by
    unfold IceModelVec2T.foldTime
    rw [if_pos hP.ne', if_pos hP.ne']
    have harg : t + s.period - s.reference_time = t - s.reference_time + s.period := by
      ring
    rw [harg, qmod_add_self hP.ne']
  constructor
  · unfold IceModelVec2T.evalAt
    rw [hfold]
  · rw [hfold]

theorem interp_periodic_witness :
    pscen.evalAt (7 + pscen.period) = pscen.evalAt 7 ∧
    pscen.interpValue (pscen.foldTime (7 + pscen.period)) =
      pscen.interpValue (pscen.foldTime 7) :=
  interp_periodic pscen 7 (by decide)

/-- A one-record state used by the C10 witness. -/
def oneRec : IceModelVec2T :=
  { time := [0], time_bounds := [-1, 1], n_records := 1, N := 1, first := 0,
    slots := [4], period := 0, reference_time := 0, n_evaluations_per_year := 12,
    interp_type := .piecewiseConstant, a2 := 9, hasFile := true,
    store := fun _ => 4 }

/-- C10: when the time axis has exactly one record, average(t, dt)
(iceModelVec2T.cc:560-565) returns at once: no sample times are computed and
the state (field value and window alike) is returned unchanged. -/
theorem average_single_record (s : IceModelVec2T) (t dt : ℚ)
    (h : s.time.length = 1) : s.average t dt = (s, []) := by
  unfold IceModelVec2T.average
  rw [if_pos h]

theorem average_single_record_witness : oneRec.average 3 5 = (oneRec, []) :=
  average_single_record oneRec 3 5 rfl

/-- C3 counterexample: from the window holding records 0 and 1 (bounds cover
[0, 20)), the call update(0, 20) needs the record span [0, 2] — 3 records,
more than n_records = 2 — yet it succeeds without error and without any Record
Store read, because the covered fast path (iceModelVec2T.cc:352-364) returns
before the buffer-size check is reached. -/
theorem update_wide_span_no_error :
    (scen1 idq).n_records <
      rightIndex (scen1 idq).time (0 + 20) + 1 - leftIndex (scen1 idq).time 0 ∧
    (scen1 idq).update 0 20 = .ok (scen1 idq, []) := by
  constructor
  · norm_num [scen0, scen1, leftIndex, rightIndex, List.range_succ, List.filter,
      List.find?]
  · norm_num [scen0, scen1, idq, IceModelVec2T.update, IceModelVec2T.fastCovered]

/-- C3 amended: for a non-periodic query interval [t, t + dt] whose required
record span exceeds n_records, update(t, dt) fails with the buffer-too-small
RuntimeError before performing any Record Store read, PROVIDED the buffered
window's time bounds do not already cover [t, t + dt]; when they do, the O(1)
fast path returns with no reads and no error even for a wide span.  The
fallible branch raises the error before any read (iceModelVec2T.cc:366-380). -/
theorem update_buffer_too_small (s : IceModelVec2T) (t dt : ℚ)
    (hf : s.hasFile = true) (hb : ¬ s.time_bounds.length = 0) (hp : s.period = 0)
    (hnc : ¬ s.fastCovered t dt)
    (hspan : s.n_records < rightIndex s.time (t + dt) + 1 - leftIndex s.time t) :
    s.update t dt = .error .bufferTooSmall := by
  unfold IceModelVec2T.update
  rw [if_neg (by rw [hf]; exact fun h => Bool.noConfusion h), if_neg hb,
    if_neg (by rw [hp]; exact fun h => h rfl), if_neg hnc, if_pos hspan]

theorem update_buffer_too_small_witness :
    (scen0 idq).update 0 25 = .error .bufferTooSmall :=
  update_buffer_too_small (scen0 idq) 0 25 rfl (by norm_num [scen0]) rfl
    (by norm_num [scen0, IceModelVec2T.fastCovered])
    (by norm_num [scen0, leftIndex, rightIndex, List.range_succ, List.filter,
      List.find?])

/-- Validity-interval containment used by the C5 claim: dt keeps [t, t + dt]
inside record k's validity interval [time_bounds[2k], time_bounds[2k+1]]. -/
def IceModelVec2T.staysWithin (s : IceModelVec2T) (k : ℕ) (t dt : ℚ) : Prop :=
  s.time_bounds.getD (2 * k) 0 ≤ t ∧ t + dt ≤ s.time_bounds.getD (2 * k + 1) 0

/-- C5 counterexample: at t = 9.5 on the axis [0, 10, 20] with bounds [0,10),
[10,20), [20,30), t lies in record 0's validity interval with only 1/2
remaining; because that remainder is below the 1-second floor, max_timestep
returns 10 — the LENGTH of the next record's interval
(iceModelVec2T.cc:525-527) — yet a step of 10 keeps [t, t + dt] within neither
the current (k = 0) nor the next (k = 1) record's validity interval; the
largest dt that stays within is 1/2. -/
theorem max_timestep_cex :
    (scen0 idq).max_timestep (19/2) = some 10 ∧
    leftIndex (scen0 idq).time (19/2) = 0 ∧
    ¬ (scen0 idq).staysWithin 0 (19/2) 10 ∧
    ¬ (scen0 idq).staysWithin 1 (19/2) 10 ∧
    (scen0 idq).staysWithin 0 (19/2) (1/2) := by
  refine ⟨?_, ?_, ?_, ?_, ?_⟩ <;>
    norm_num [scen0, IceModelVec2T.max_timestep, IceModelVec2T.staysWithin,
      leftIndex, List.range_succ, List.filter]

/-- C5 amended: writing k for the bracket index of t and hi for the end
time_bounds[2k+1] of record k's validity interval, max_timestep(t) returns
hi - t when more than 1 second remains (and hi - t is then the largest dt with
t + dt ≤ hi, i.e. the largest step staying within the current record's
interval); when at most 1 second remains it returns the LENGTH of the next
record's validity interval if a next record exists, and "unbounded" (none)
otherwise.  In particular "unbounded" is reported exactly when t is within one
second of, at, or past the end of the LAST record's interval — not whenever t
is anywhere at or past the last record's interval. -/
theorem max_timestep_spec (s : IceModelVec2T) (t : ℚ) :
    (1 < s.time_bounds.getD (2 * leftIndex s.time t + 1) 0 - t →
      s.max_timestep t =
        some (s.time_bounds.getD (2 * leftIndex s.time t + 1) 0 - t) ∧
      (∀ d : ℚ, t + d ≤ s.time_bounds.getD (2 * leftIndex s.time t + 1) 0 ↔
        d ≤ s.time_bounds.getD (2 * leftIndex s.time t + 1) 0 - t)) ∧
    (s.time_bounds.getD (2 * leftIndex s.time t + 1) 0 - t ≤ 1 →
      leftIndex s.time t + 1 < s.time.length →
      s.max_timestep t =
        some (s.time_bounds.getD (2 * (leftIndex s.time t + 1) + 1) 0 -
          s.time_bounds.getD (2 * (leftIndex s.time t + 1)) 0)) ∧
    (s.time_bounds.getD (2 * leftIndex s.time t + 1) 0 - t ≤ 1 →
      ¬ leftIndex s.time t + 1 < s.time.length → s.max_timestep t = none) := by
  refine ⟨?_, ?_, ?_⟩
  · intro h1
    have hmax : max (s.time_bounds.getD (2 * leftIndex s.time t + 1) 0 - t) 0 =
        s.time_bounds.getD (2 * leftIndex s.time t + 1) 0 - t :=
      max_eq_left (by linarith)
    constructor
    · simp only [IceModelVec2T.max_timestep]
      rw [hmax, if_pos h1]
    · intro d
      constructor <;> intro hd <;> linarith
  · intro h1 h2
    have hmax : max (s.time_bounds.getD (2 * leftIndex s.time t + 1) 0 - t) 0 ≤ 1 :=
      max_le h1 (by norm_num)
    simp only [IceModelVec2T.max_timestep]
    rw [if_neg (not_lt.mpr hmax), if_pos h2]
  · intro h1 h2
    have hmax : max (s.time_bounds.getD (2 * leftIndex s.time t + 1) 0 - t) 0 ≤ 1 :=
      max_le h1 (by norm_num)
    simp only [IceModelVec2T.max_timestep]
    rw [if_neg (not_lt.mpr hmax), if_neg h2]

theorem max_timestep_spec_witness :
    (scen0 idq).max_timestep 5 =
      some ((scen0 idq).time_bounds.getD (2 * leftIndex (scen0 idq).time 5 + 1) 0 - 5) ∧
    (∀ d : ℚ, 5 + d ≤ (scen0 idq).time_bounds.getD (2 * leftIndex (scen0 idq).time 5 + 1) 0 ↔
      d ≤ (scen0 idq).time_bounds.getD (2 * leftIndex (scen0 idq).time 5 + 1) 0 - 5) :=
  (max_timestep_spec (scen0 idq) 5).1
    (by norm_num [scen0, leftIndex, List.range_succ, List.filter])

/-- C4: with a multi-record time axis and dt > 0, average(t, dt)
(iceModelVec2T.cc:556-587) samples exactly M = sampleCount dt =
max(1, ceil(n_evaluations_per_year * dt)) times t + k * (dt / M) for
k = 0 .. M-1, all lying in [t, t + dt), and stores the unweighted arithmetic
mean of the M Interpolation Engine values at those (periodized) sample times;
the N = 1 shortcut of average(int, int) (iceModelVec2T.cc:645-647) returns the
same mean because a single-record buffer interpolates to slot 0 at every
sample. -/
theorem average_sample_mean (s : IceModelVec2T) (t dt : ℚ) (hdt : 0 < dt)
    (hax : ¬ s.time.length = 1) :
    (s.average t dt).2 =
      (List.range (s.sampleCount dt)).map
        (fun k : ℕ => t + (k : ℚ) * (dt / (s.sampleCount dt : ℚ))) ∧
    (s.average t dt).2.length = s.sampleCount dt ∧
    (∀ x ∈ (s.average t dt).2, t ≤ x ∧ x < t + dt) ∧
    (s.average t dt).1.a2 =
      ((s.average t dt).2.map fun x => s.interpValue (s.foldTime x)).sum /
        (s.sampleCount dt : ℚ) := by
  have hM : 0 < s.sampleCount dt := s.sampleCount_pos dt
  have hMQ : (0 : ℚ) < (s.sampleCount dt : ℚ) := by exact_mod_cast hM
  have havg : s.average t dt =
      ({ s with a2 :=
          if s.N = 1 then s.slots.getD 0 0
          else (((List.range (s.sampleCount dt)).map
              (fun k : ℕ => t + (k : ℚ) * (dt / (s.sampleCount dt : ℚ)))).map
              fun x => s.interpValue (s.foldTime x)).sum / (s.sampleCount dt : ℚ) },
        (List.range (s.sampleCount dt)).map
          (fun k : ℕ => t + (k : ℚ) * (dt / (s.sampleCount dt : ℚ)))) := by
    unfold IceModelVec2T.average
    rw [if_neg hax]
  rw [havg]
  refine ⟨rfl, by rw [List.length_map, List.length_range], ?_, ?_⟩
  · intro x hx
    rw [List.mem_map] at hx
    obtain ⟨k, hk, rfl⟩ := hx
    rw [List.mem_range] at hk
    have hkQ : (k : ℚ) < (s.sampleCount dt : ℚ) := by exact_mod_cast hk
    have hpos : 0 < dt / (s.sampleCount dt : ℚ) := div_pos hdt hMQ
    constructor
    · have : 0 ≤ (k : ℚ) * (dt / (s.sampleCount dt : ℚ)) :=
        mul_nonneg (Nat.cast_nonneg k) hpos.le
      linarith
    · have hlt : (k : ℚ) * (dt / (s.sampleCount dt : ℚ)) <
          (s.sampleCount dt : ℚ) * (dt / (s.sampleCount dt : ℚ)) :=
        mul_lt_mul_of_pos_right hkQ hpos
      have hcancel : (s.sampleCount dt : ℚ) * (dt / (s.sampleCount dt : ℚ)) = dt := by
        field_simp
      linarith
  · by_cases hN : s.N = 1
    · rw [if_pos hN]
      have hconst : (((List.range (s.sampleCount dt)).map
            (fun k : ℕ => t + (k : ℚ) * (dt / (s.sampleCount dt : ℚ)))).map
            fun x => s.interpValue (s.foldTime x)) =
          ((List.range (s.sampleCount dt)).map
            (fun k : ℕ => t + (k : ℚ) * (dt / (s.sampleCount dt : ℚ)))).map
            fun _ => s.slots.getD 0 0 :=
        List.map_congr_left fun x _ => s.interpValue_single hN _
      rw [hconst, List.map_const', List.sum_replicate, List.length_map,
        List.length_range, nsmul_eq_mul, mul_div_cancel_left₀ _ hMQ.ne']
    · rw [if_neg hN]

theorem average_sample_mean_witness :
    ((scen1 idq).average 10 2).2 =
      (List.range ((scen1 idq).sampleCount 2)).map
        (fun k : ℕ => 10 + (k : ℚ) * (2 / ((scen1 idq).sampleCount 2 : ℚ))) ∧
    ((scen1 idq).average 10 2).2.length = (scen1 idq).sampleCount 2 ∧
    (∀ x ∈ ((scen1 idq).average 10 2).2, 10 ≤ x ∧ x < 10 + 2) ∧
    ((scen1 idq).average 10 2).1.a2 =
      (((scen1 idq).average 10 2).2.map
        fun x => (scen1 idq).interpValue ((scen1 idq).foldTime x)).sum /
          ((scen1 idq).sampleCount 2 : ℚ) :=
  average_sample_mean (scen1 idq) 10 2 (by norm_num)
    (by norm_num [scen1, scen0])

/-- Validity of the scenario state holding records 0 and 1. -/
lemma scen1_valid : (scen1 idq).Valid := by
  unfold IceModelVec2T.Valid scen1 scen0 idq
  refine ⟨by norm_num, by norm_num, by norm_num, by norm_num, by norm_num, ?_⟩
  intro _
  refine ⟨by norm_num, ?_⟩
  intro i hi
  simp only at hi
  interval_cases i <;> norm_num

/-- C8: the spec's discard_prefix(k) — IceModelVec2T::discard(k) plus the
caller's advance of `first` (iceModelVec2T.cc:405-410) — copies slot i + k to
slot i for i < N - k, decrements N by k, advances first by k, keeps the slot
storage at its fixed length (no reallocation), and afterwards the buffer holds
exactly the data of file records [first + k, first + N) in slots 0 .. N-k-1. -/
theorem discardAdvance_spec (s : IceModelVec2T) (k : ℕ) (hk : 0 < k) (hkN : k ≤ s.N)
    (hv : s.Valid) :
    (s.discardAdvance k).N = s.N - k ∧
    (s.discardAdvance k).first = s.first + k ∧
    (s.discardAdvance k).slots.length = s.slots.length ∧
    (∀ i, i < s.N - k → (s.discardAdvance k).slots.getD i 0 = s.slots.getD (i + k) 0) ∧
    (∀ i, i < (s.discardAdvance k).N →
      (s.discardAdvance k).slots.getD i 0 =
        s.store ((s.discardAdvance k).first.toNat + i)) := by
  obtain ⟨hcap, hNr, hlen, hiff, hfs, hcont⟩ := hv
  have hk0 : k ≠ 0 := hk.ne'
  have hN0 : 0 < s.N := lt_of_lt_of_le hk hkN
  have hf0 : 0 ≤ s.first := by
    rcases hfs with h | h
    · exact absurd (hiff.mp h) (by omega)
    · exact h
  obtain ⟨hwin, hslots⟩ := hcont hN0
  have hdN : (s.discardAdvance k).N = s.N - k := by
    unfold IceModelVec2T.discardAdvance
    rw [IceModelVec2T.discard_N_of_ne s hk0]
  have hdfirst : (s.discardAdvance k).first = s.first + k := rfl
  have hdslots : (s.discardAdvance k).slots = discardSlots s.slots (s.N - k) k := by
    unfold IceModelVec2T.discardAdvance
    rw [IceModelVec2T.discard_slots_of_ne s hk0]
  have hgetD : ∀ i, i < s.N - k →
      (s.discardAdvance k).slots.getD i 0 = s.slots.getD (i + k) 0 := by
    intro i hi
    rw [hdslots, discardSlots_getD s.slots _ _ (by omega), if_pos hi]
  refine ⟨hdN, hdfirst, by rw [hdslots, discardSlots_length], hgetD, ?_⟩
  intro i hi
  rw [hdN] at hi
  rw [hgetD i hi, hslots (i + k) (by omega), hdfirst]
  have htn : (s.first + (k : ℤ)).toNat = s.first.toNat + k := by omega
  rw [htn]
  congr 1
  omega

theorem discardAdvance_spec_witness :
    ((scen1 idq).discardAdvance 1).N = (scen1 idq).N - 1 ∧
    ((scen1 idq).discardAdvance 1).first = (scen1 idq).first + 1 ∧
    ((scen1 idq).discardAdvance 1).slots.length = (scen1 idq).slots.length ∧
    (∀ i, i < (scen1 idq).N - 1 →
      ((scen1 idq).discardAdvance 1).slots.getD i 0 =
        (scen1 idq).slots.getD (i + 1) 0) ∧
    (∀ i, i < ((scen1 idq).discardAdvance 1).N →
      ((scen1 idq).discardAdvance 1).slots.getD i 0 =
        (scen1 idq).store (((scen1 idq).discardAdvance 1).first.toNat + i)) :=
  discardAdvance_spec (scen1 idq) 1 (by norm_num) (by norm_num [scen1, scen0])
    scen1_valid

/-! Projection and analysis lemmas for update(unsigned int). -/

@[simp] lemma IceModelVec2T.fetch_fst_time (s : IceModelVec2T) (k m st : ℕ) :
    (s.fetch k m st).1.time = s.time := rfl

@[simp] lemma IceModelVec2T.fetch_fst_time_bounds (s : IceModelVec2T) (k m st : ℕ) :
    (s.fetch k m st).1.time_bounds = s.time_bounds := rfl

@[simp] lemma IceModelVec2T.fetch_fst_period (s : IceModelVec2T) (k m st : ℕ) :
    (s.fetch k m st).1.period = s.period := rfl

@[simp] lemma IceModelVec2T.fetch_fst_n_records (s : IceModelVec2T) (k m st : ℕ) :
    (s.fetch k m st).1.n_records = s.n_records := rfl

@[simp] lemma IceModelVec2T.fetch_fst_hasFile (s : IceModelVec2T) (k m st : ℕ) :
    (s.fetch k m st).1.hasFile = s.hasFile := rfl

@[simp] lemma IceModelVec2T.fetch_fst_store (s : IceModelVec2T) (k m st : ℕ) :
    (s.fetch k m st).1.store = s.store := rfl

@[simp] lemma IceModelVec2T.fetch_fst_first (s : IceModelVec2T) (k m st : ℕ) :
    (s.fetch k m st).1.first = s.first := rfl

@[simp] lemma IceModelVec2T.fetch_fst_N (s : IceModelVec2T) (k m st : ℕ) :
    (s.fetch k m st).1.N = k + m := rfl

lemma IceModelVec2T.fetch_fst_slots (s : IceModelVec2T) (k m st : ℕ) :
    (s.fetch k m st).1.slots =
      setMany s.slots k (fun j => s.store (st + j)) m := rfl

@[simp] lemma IceModelVec2T.fetch_snd (s : IceModelVec2T) (k m st : ℕ) :
    (s.fetch k m st).2 = (List.range m).map (st + ·) := rfl

/-- Record indices read by one fetch loop are pairwise distinct. -/
lemma nodup_reads (st m : ℕ) : ((List.range m).map (st + ·)).Nodup :=
  List.Nodup.map (fun a b hab => by omega) (List.nodup_range m)

/-- A no-op update: when start equals the resident first index, update(start)
returns at once with no reads (iceModelVec2T.cc:396-399). -/
lemma update_start_self {s : IceModelVec2T} {start : ℕ}
    (h1 : start < s.time.length) (h2 : (start : ℤ) = s.first) :
    s.update_start start = .ok (s, []) := by
  unfold IceModelVec2T.update_start
  rw [if_neg (by omega), if_pos h2]

/-- Frame facts of a successful update(start): the new window starts at start,
the time axis, bounds, period, capacity, file flag and Record Store are
untouched, the reads are pairwise distinct, and start was a legal index. -/
lemma update_start_ok_frame {s s' : IceModelVec2T} {start : ℕ} {r : List ℕ}
    (h : s.update_start start = .ok (s', r)) :
    s'.first = (start : ℤ) ∧ s'.time = s.time ∧ s'.time_bounds = s.time_bounds ∧
    s'.period = s.period ∧ s'.n_records = s.n_records ∧ s'.hasFile = s.hasFile ∧
    r.Nodup ∧ start < s.time.length := by
  simp only [IceModelVec2T.update_start] at h
  split at h
  · exact absurd h (by simp)
  next hlen =>
    have hlt : start < s.time.length := by omega
    split at h
    next heq =>
      simp only [Except.ok.injEq, Prod.mk.injEq] at h
      obtain ⟨rfl, rfl⟩ := h
      exact ⟨heq.symm, rfl, rfl, rfl, rfl, rfl, List.nodup_nil, hlt⟩
    next hne =>
      split at h
      next hov =>
        split at h
        next hm0 =>
          simp only [Except.ok.injEq, Prod.mk.injEq] at h
          obtain ⟨rfl, rfl⟩ := h
          refine ⟨rfl, by simp, by simp, by simp, by simp, by simp,
            List.nodup_nil, hlt⟩
        next hm0 =>
          simp only [Except.ok.injEq, Prod.ext_iff] at h
          obtain ⟨rfl, rfl⟩ := h
          refine ⟨by simp, by simp, by simp, by simp, by simp, by simp,
            by simp [nodup_reads], hlt⟩
      next hov =>
        split at h
        next hm0 =>
          simp only [Except.ok.injEq, Prod.mk.injEq] at h
          obtain ⟨rfl, rfl⟩ := h
          exact ⟨rfl, rfl, rfl, rfl, rfl, rfl, List.nodup_nil, hlt⟩
        next hm0 =>
          simp only [Except.ok.injEq, Prod.ext_iff] at h
          obtain ⟨rfl, rfl⟩ := h
          refine ⟨by simp, by simp, by simp, by simp, by simp, by simp,
            by simp [nodup_reads], hlt⟩

/-- C2: ensure_coverage is idempotent.  If update(t, dt) succeeds, producing
state s1 with reads r1, then the identical second call update(t, dt) on s1
performs no Record Store reads and returns s1 itself (window state (first, N)
and all slot contents unchanged); the first call's reads r1 are pairwise
distinct, so across the two calls each record index is read at most once.
When the buffered window already covers [t, t + dt] (the fast path together
with its guards) even the first call reads nothing and leaves the state
unchanged. -/
theorem update_idempotent (s s1 : IceModelVec2T) (t dt : ℚ) (r1 : List ℕ)
    (h : s.update t dt = .ok (s1, r1)) :
    s1.update t dt = .ok (s1, []) ∧ r1.Nodup ∧
      ((s.hasFile = true ∧ s.time_bounds.length ≠ 0 ∧ s.period = 0 ∧
        s.fastCovered t dt) → s1 = s ∧ r1 = []) := by
  simp only [IceModelVec2T.update] at h
  split at h
  next hnf =>
    simp only [Except.ok.injEq, Prod.mk.injEq] at h
    obtain ⟨rfl, rfl⟩ := h
    refine ⟨?_, List.nodup_nil, fun _ => ⟨rfl, rfl⟩⟩
    unfold IceModelVec2T.update
    rw [if_pos hnf]
  next hnf =>
    split at h
    next hb0 =>
      obtain ⟨hfirst, htime, hbounds, hper, hnrec, hhf, hnodup, hlt⟩ :=
        update_start_ok_frame h
      refine ⟨?_, hnodup, ?_⟩
      · unfold IceModelVec2T.update
        rw [if_neg (by rw [hhf]; exact hnf), if_pos (by rw [hbounds]; exact hb0)]
        exact update_start_self (by rw [htime]; exact hlt) hfirst.symm
      · rintro ⟨-, hbne, -, -⟩
        exact absurd hb0 hbne
    next hb0 =>
      split at h
      next hper =>
        simp only [Except.ok.injEq, Prod.mk.injEq] at h
        obtain ⟨rfl, rfl⟩ := h
        refine ⟨?_, List.nodup_nil, fun _ => ⟨rfl, rfl⟩⟩
        unfold IceModelVec2T.update
        rw [if_neg hnf, if_neg hb0, if_pos hper]
      next hper =>
        split at h
        next hfast =>
          simp only [Except.ok.injEq, Prod.mk.injEq] at h
          obtain ⟨rfl, rfl⟩ := h
          refine ⟨?_, List.nodup_nil, fun _ => ⟨rfl, rfl⟩⟩
          unfold IceModelVec2T.update
          rw [if_neg hnf, if_neg hb0, if_neg hper, if_pos hfast]
        next hfast =>
          split at h
          next hneed => exact absurd h (by simp)
          next hneed =>
            obtain ⟨hfirst, htime, hbounds, hper', hnrec, hhf, hnodup, hlt⟩ :=
              update_start_ok_frame h
            refine ⟨?_, hnodup, ?_⟩
            · unfold IceModelVec2T.update
              rw [if_neg (by rw [hhf]; exact hnf),
                if_neg (by rw [hbounds]; exact hb0),
                if_neg (by rw [hper']; exact hper)]
              by_cases hfast1 : s1.fastCovered t dt
              · rw [if_pos hfast1]
              · rw [if_neg hfast1, htime, hnrec, if_neg hneed]
                exact update_start_self (by rw [htime]; exact hlt) hfirst.symm
            · rintro ⟨-, -, -, hfastS⟩
              exact absurd hfastS hfast

/-- Preservation of the window invariant by update(unsigned int): a successful
call leaves a valid state — in particular the fetch loop fills slots
kept .. kept+missing-1 with exactly the records start+kept .. start+missing-1,
keeping the window contiguous. -/
lemma update_start_ok_valid {s s' : IceModelVec2T} {start : ℕ} {r : List ℕ}
    (hv : s.Valid) (h : s.update_start start = .ok (s', r)) : s'.Valid := by
  obtain ⟨hcap, hNr, hlen, hiff, hfs, hcont⟩ := hv
  simp only [IceModelVec2T.update_start] at h
  split at h
  · exact absurd h (by simp)
  next hlen2 =>
    have hlt : start < s.time.length := by omega
    split at h
    next heq =>
      simp only [Except.ok.injEq, Prod.mk.injEq] at h
      obtain ⟨rfl, rfl⟩ := h
      exact ⟨hcap, hNr, hlen, hiff, hfs, hcont⟩
    next hne =>
      split at h
      next hov =>
        obtain ⟨hf0, hN0, hfle, hlast⟩ := hov
        have hFnat : (s.first.toNat : ℤ) = s.first := Int.toNat_of_nonneg hf0
        set F := s.first.toNat with hFdef
        have hFle : F ≤ start := by omega
        have hstart_le : start + 1 ≤ F + s.N := by omega
        have hwin : F + s.N ≤ s.time.length := (hcont hN0).1
        have hvals := (hcont hN0).2
        have hd0 : start - F ≠ 0 := by
          intro h0
          exact hne (by rw [show start = F by omega, hFnat])
        have hdN : (s.discard (start - F)).N = s.N - (start - F) :=
          s.discard_N_of_ne hd0
        have hdsl : (s.discard (start - F)).slots =
            discardSlots s.slots (s.N - (start - F)) (start - F) :=
          s.discard_slots_of_ne hd0
        split at h
        next hm0 =>
          simp only [Except.ok.injEq, Prod.mk.injEq] at h
          obtain ⟨rfl, rfl⟩ := h
          unfold IceModelVec2T.Valid
          dsimp only
          simp only [IceModelVec2T.discard_time, IceModelVec2T.discard_n_records,
            IceModelVec2T.discard_store]
          rw [hdN, hdsl]
          refine ⟨hcap, by omega, by rw [discardSlots_length]; exact hlen,
            iff_of_false (by omega) (by omega), Or.inr (by omega), ?_⟩
          intro _
          refine ⟨by omega, ?_⟩
          intro i hi
          rw [discardSlots_getD s.slots _ _ (by omega), if_pos hi,
            hvals (i + (start - F)) (by omega)]
          congr 1
          omega
        next hm0 =>
          simp only [Except.ok.injEq, Prod.ext_iff] at h
          obtain ⟨rfl, rfl⟩ := h
          have hkm : s.N - (start - F) ≤ min s.n_records (s.time.length - start) := by
            omega
          unfold IceModelVec2T.Valid
          simp only [IceModelVec2T.fetch_fst_N, IceModelVec2T.fetch_fst_slots,
            IceModelVec2T.fetch_fst_time, IceModelVec2T.fetch_fst_n_records,
            IceModelVec2T.fetch_fst_store, IceModelVec2T.fetch_fst_first]
          simp only [IceModelVec2T.discard_time, IceModelVec2T.discard_n_records,
            IceModelVec2T.discard_store]
          rw [hdsl]
          refine ⟨hcap, by omega,
            by rw [setMany_length, discardSlots_length]; exact hlen,
            iff_of_false (by omega) (by omega), Or.inr (by omega), ?_⟩
          intro _
          refine ⟨by omega, ?_⟩
          intro i hi
          by_cases hik : i < s.N - (start - F)
          · rw [setMany_getD_lt _ _ _ _ hik,
              discardSlots_getD s.slots _ _ (by omega), if_pos hik,
              hvals (i + (start - F)) (by omega)]
            congr 1
            omega
          · push_neg at hik
            rw [setMany_getD_in _ _ _ _ hik (by omega)
              (by rw [discardSlots_length]; omega)]
            congr 1
            omega
      next hov =>
        split at h
        next hm0 =>
          exfalso
          omega
        next hm0 =>
          simp only [Except.ok.injEq, Prod.ext_iff] at h
          obtain ⟨rfl, rfl⟩ := h
          unfold IceModelVec2T.Valid
          simp only [IceModelVec2T.fetch_fst_N, IceModelVec2T.fetch_fst_slots,
            IceModelVec2T.fetch_fst_time, IceModelVec2T.fetch_fst_n_records,
            IceModelVec2T.fetch_fst_store, IceModelVec2T.fetch_fst_first]
          refine ⟨hcap, by omega, by rw [setMany_length]; exact hlen,
            iff_of_false (by omega) (by omega), Or.inr (by omega), ?_⟩
          intro _
          refine ⟨by omega, ?_⟩
          intro i hi
          rw [setMany_getD_in _ _ _ _ (Nat.zero_le i) (by omega) (by omega)]
          congr 1

/-- Preservation of the window invariant by update(double, double). -/
lemma update_ok_valid {s s' : IceModelVec2T} {t dt : ℚ} {r : List ℕ}
    (hv : s.Valid) (h : s.update t dt = .ok (s', r)) : s'.Valid := by
  simp only [IceModelVec2T.update] at h
  split at h
  · simp only [Except.ok.injEq, Prod.mk.injEq] at h
    obtain ⟨rfl, rfl⟩ := h
    exact hv
  · split at h
    · exact update_start_ok_valid hv h
    · split at h
      · simp only [Except.ok.injEq, Prod.mk.injEq] at h
        obtain ⟨rfl, rfl⟩ := h
        exact hv
      · split at h
        · simp only [Except.ok.injEq, Prod.mk.injEq] at h
          obtain ⟨rfl, rfl⟩ := h
          exact hv
        · split at h
          · exact absurd h (by simp)
          · exact update_start_ok_valid hv h

/-- Preservation of the window invariant by the periodic branch of init. -/
lemma init_periodic_ok_valid {s s' : IceModelVec2T} {r : List ℕ}
    (hv : s.Valid) (h : s.init_periodic_read = .ok (s', r)) : s'.Valid := by
  simp only [IceModelVec2T.init_periodic_read] at h
  split at h
  · split at h
    · exact absurd h (by simp)
    · exact update_start_ok_valid hv h
  · simp only [Except.ok.injEq, Prod.mk.injEq] at h
    obtain ⟨rfl, rfl⟩ := h
    exact hv

/-- init_constant establishes the window invariant: one record, first = 0, the
sole slot holding the constant. -/
lemma init_constant_valid {s : IceModelVec2T} (v : ℚ) (hv : s.Valid) :
    (s.init_constant v).Valid := by
  obtain ⟨hcap, hNr, hlen, _, _, _⟩ := hv
  unfold IceModelVec2T.init_constant IceModelVec2T.Valid
  dsimp only
  refine ⟨hcap, hcap, by rw [List.length_set]; exact hlen,
    iff_of_false (by omega) (by omega), Or.inr (by omega), ?_⟩
  intro _
  refine ⟨by norm_num, ?_⟩
  intro i hi
  have hi0 : i = 0 := by omega
  subst hi0
  rw [List.getD_eq_getElem?_getD, List.getElem?_set_eq_of_lt _ (by omega)]
  simp

/-- The discard-prefix operation, as the code performs it (always with
k < N: update keeps at least one overlapping record, iceModelVec2T.cc:404-407),
preserves the window invariant. -/
lemma discardAdvance_valid {s : IceModelVec2T} {k : ℕ} (hk : 0 < k)
    (hkN : k < s.N) (hv : s.Valid) : (s.discardAdvance k).Valid := by
  obtain ⟨hcap, hNr, hlen, hiff, hfs, hcont⟩ := hv
  have hN0 : 0 < s.N := by omega
  have hf0 : 0 ≤ s.first := by
    rcases hfs with h | h
    · exact absurd (hiff.mp h) (by omega)
    · exact h
  obtain ⟨hwin, hvals⟩ := hcont hN0
  have hk0 : k ≠ 0 := by omega
  unfold IceModelVec2T.discardAdvance IceModelVec2T.Valid
  dsimp only
  simp only [IceModelVec2T.discard_time, IceModelVec2T.discard_n_records,
    IceModelVec2T.discard_store]
  rw [s.discard_N_of_ne hk0, s.discard_slots_of_ne hk0]
  refine ⟨hcap, by omega, by rw [discardSlots_length]; exact hlen,
    iff_of_false (by omega) (by omega), Or.inr (by omega), ?_⟩
  intro _
  refine ⟨by omega, ?_⟩
  intro i hi
  rw [discardSlots_getD s.slots _ _ (by omega), if_pos hi,
    hvals (i + k) (by omega)]
  congr 1
  omega

/-- C9: every modelled operation of the cache preserves the window-state
invariant:  0 ≤ N ≤ n_records, first is the -1 sentinel iff N = 0, and the
slots hold the contiguous run of file records [first, first + N); slot storage
never changes length (no reallocation).  Initialization is init_constant and
the periodic read of init; ensure_coverage is update(double, double); fetch is
the read loop of update(unsigned int), which also reports its reads; the
discard-prefix operation is exercised by update with k < N (the code never
discards the whole window: the overlap branch keeps at least one record, and
full replacement goes through the no-overlap branch instead); evaluate (interp)
and time_average only rewrite the output field, leaving the window untouched. -/
theorem operations_preserve_invariant :
    (∀ (s : IceModelVec2T) (v : ℚ), s.Valid → (s.init_constant v).Valid) ∧
    (∀ (s s' : IceModelVec2T) (r : List ℕ), s.Valid →
      s.init_periodic_read = .ok (s', r) → s'.Valid) ∧
    (∀ (s s' : IceModelVec2T) (t dt : ℚ) (r : List ℕ), s.Valid →
      s.update t dt = .ok (s', r) → s'.Valid) ∧
    (∀ (s s' : IceModelVec2T) (start : ℕ) (r : List ℕ), s.Valid →
      s.update_start start = .ok (s', r) → s'.Valid) ∧
    (∀ (s : IceModelVec2T) (kept missing start : ℕ),
      (s.fetch kept missing start).1.slots.length = s.slots.length ∧
      (s.fetch kept missing start).1.N = kept + missing ∧
      (s.fetch kept missing start).2 = (List.range missing).map (start + ·)) ∧
    (∀ (s : IceModelVec2T) (k : ℕ), 0 < k → k < s.N → s.Valid →
      (s.discardAdvance k).Valid) ∧
    (∀ (s : IceModelVec2T) (t : ℚ), s.Valid → (s.interp t).Valid ∧
      (s.interp t).N = s.N ∧ (s.interp t).first = s.first ∧
      (s.interp t).slots = s.slots) ∧
    (∀ (s : IceModelVec2T) (t dt : ℚ), s.Valid → (s.average t dt).1.Valid ∧
      (s.average t dt).1.N = s.N ∧ (s.average t dt).1.first = s.first ∧
      (s.average t dt).1.slots = s.slots) := by
  refine ⟨fun s v hv => init_constant_valid v hv,
    fun s s' r hv h => init_periodic_ok_valid hv h,
    fun s s' t dt r hv h => update_ok_valid hv h,
    fun s s' st r hv h => update_start_ok_valid hv h,
    fun s k m st => ⟨by rw [IceModelVec2T.fetch_fst_slots, setMany_length], rfl, rfl⟩,
    fun s k hk hkN hv => discardAdvance_valid hk hkN hv,
    fun s t hv => ⟨hv, rfl, rfl, rfl⟩,
    fun s t dt hv => ?_⟩
  unfold IceModelVec2T.average
  split
  · exact ⟨hv, rfl, rfl, rfl⟩
  · exact ⟨hv, rfl, rfl, rfl⟩

theorem operations_preserve_invariant_witness : (scen2 idq).Valid :=
  operations_preserve_invariant.2.2.1 (scen1 idq) (scen2 idq) 15 18 [2]
    scen1_valid
    (by norm_num [scen0, scen1, scen2, IceModelVec2T.update,
      IceModelVec2T.update_start, IceModelVec2T.fetch, IceModelVec2T.discard,
      IceModelVec2T.fastCovered, discardSlots, setMany, leftIndex, rightIndex,
      List.range_succ, List.filter, List.find?, List.foldl])

theorem update_idempotent_witness :
    (scen1 idq).update 0 5 = .ok (scen1 idq, []) ∧ ([0, 1] : List ℕ).Nodup ∧
      (((scen0 idq).hasFile = true ∧ (scen0 idq).time_bounds.length ≠ 0 ∧
        (scen0 idq).period = 0 ∧ (scen0 idq).fastCovered 0 5) →
        scen1 idq = scen0 idq ∧ ([0, 1] : List ℕ) = []) :=
  update_idempotent (scen0 idq) (scen1 idq) 0 5 [0, 1]
    (by norm_num [scen0, scen1, IceModelVec2T.update, IceModelVec2T.update_start,
      IceModelVec2T.fetch, IceModelVec2T.discard, IceModelVec2T.fastCovered,
      discardSlots, setMany, leftIndex, rightIndex, List.range_succ, List.filter,
      List.find?, List.foldl])

/-- C9 counterexample: the spec-level discard_prefix applied to the WHOLE
window (k = N, allowed by spec 4.2's 0 < k ≤ N) empties the window while
advancing `first` past the data instead of resetting it to the -1 sentinel:
the "first unset iff N = 0" half of the invariant breaks.  The code itself
never performs this call — update's overlap branch always keeps at least one
record and full replacement resets `first` directly. -/
theorem discardAdvance_full_cex :
    ((scen1 idq).discardAdvance 2).N = 0 ∧
    ((scen1 idq).discardAdvance 2).first = 2 ∧
    ¬ ((scen1 idq).discardAdvance 2).Valid := by
  have hN : ((scen1 idq).discardAdvance 2).N = 0 := by
    norm_num [scen1, scen0, IceModelVec2T.discardAdvance, IceModelVec2T.discard]
  have hf : ((scen1 idq).discardAdvance 2).first = 2 := by
    norm_num [scen1, scen0, IceModelVec2T.discardAdvance, IceModelVec2T.discard]
  refine ⟨hN, hf, fun hv => ?_⟩
  have h1 := hv.2.2.2.1.mpr hN
  rw [hf] at h1
  exact absurd h1 (by decide)
